import Mathlib

/-!
Verification of the whapp-irc connection/session core (connection.go) against
its natural-language specification.

The Go source is shallowly embedded: pure fragments become Lean functions,
the stateful catch-up / relay loops become explicit state passing, IRC output
becomes an accumulated event trace, and external collaborators (the platform
API, the record store, the unidecode transliteration, the retry library's
scheduling) become function parameters.  Machine `int64` timestamps are
embedded as `Int` (no arithmetic in the embedded code can overflow: the code
only compares and copies timestamps).
-/

/- ## Basic types -/

abbrev ChatID := String

abbrev Timestamp := Int

/-- Go's `math.MinInt64`, used by the catch-up loop as the "fetch everything"
sentinel when a chat has no watermark entry. -/
def minInt64 : Int := -(2 ^ 63)

/- ## Watermark map (`TimestampMap`)

Modelled from the spec: the `TimestampMap` implementation is not under src
(only its call sites are).  Per the spec it is a mapping from chat identifier
to timestamp with `Get` (value plus found flag, zero value when absent),
`Set` (upsert), `Length`, and `Swap` (wholesale replacement).  We embed it as
an association list; `tmSet` overwrites the first binding of the key or
appends a fresh one. -/

abbrev WMap := List (ChatID × Timestamp)

def tmGet (m : WMap) (k : ChatID) : Timestamp × Bool :=
  match m.find? (fun p => p.1 == k) with
  | some p => (p.2, true)
  | none => (0, false)

def tmSet : WMap → ChatID → Timestamp → WMap
  | [], k, v => [(k, v)]
  | p :: ps, k, v => if p.1 == k then (k, v) :: ps else p :: tmSet ps k v

def tmLength (m : WMap) : Nat := m.length

/-- `TimestampMap.Swap` replaces the whole mapping (used by `setup` to restore
the persisted snapshot). -/
def tmSwap (_m new : WMap) : WMap := new

/- ## ircSafeString (connection.go utility file)

`ircSafeString` runs the go-unidecode transliteration and then strips every
character not matched by `(?i)[a-z\d+]`.  The transliteration is an external
library; it is embedded as a per-character expansion `u : Char → List Char`.
Strings are embedded as rune lists. -/

/-- ASCII letters (either case), ASCII digits, and the plus sign. -/
def asciiSafeChar (ch : Char) : Bool :=
  ch.isAlpha || ch.isDigit || ch == '+'

/-- Characters kept by the regex `(?i)[^a-z\d+]` replacement.  Go's regexp
(RE2) applies Unicode simple case folding to the class before negation, so
besides the ASCII letters, digits and the plus sign, the two non-ASCII
characters folding into `a-z` are also kept: U+212A (Kelvin sign, folds with
k) and U+017F (long s, folds with s). -/
def ircSafeChar (ch : Char) : Bool :=
  asciiSafeChar ch || ch == 'K' || ch == 'ſ'

def ircSafeString (u : Char → List Char) (s : List Char) : List Char :=
  (s.flatMap u).filter ircSafeChar

/-- Sample transliteration used for concrete evaluation: like go-unidecode it
emits only ASCII, is the identity there, and transliterates the Kelvin sign
to "K"; everything else collapses to "?". -/
def unidecodeSample (ch : Char) : List Char :=
  if ch.toNat < 128 then [ch]
  else if ch == 'K' then ['K']
  else ['?']

/- ## Chat list and `addChat` (connection.go lines 372-392)

Only the fields the claims touch are embedded.  `identifier` and the
participants' `safeName` stand for the sanitised names computed by the
projection helpers (not under src; per the spec they are derived from the
platform names by the sanitisation transform). -/

structure JParticipant where
  safeName : String
  isAdmin : Bool
  isMe : Bool
  deriving DecidableEq, Repr

structure JChat where
  id : ChatID
  name : String
  identifier : String
  isGroupChat : Bool
  participants : List JParticipant
  joined : Bool
  description : Option String
  deriving DecidableEq, Repr

/-- `Connection.addChat`'s list update: replace the first entry with the same
`ID` in place, otherwise append.  (The conversion of the raw platform chat is
external input; we start from the already-converted `JChat`.) -/
def addChat : List JChat → JChat → List JChat
  | [], c => [c]
  | x :: xs, c => if x.id == c.id then c :: xs else x :: addChat xs c

/- ## joinChat (connection.go lines 270-325) -/

def joinLine (nickname identifier : String) : String :=
  ":" ++ nickname ++ " JOIN " ++ identifier

def topicLine (nickname : String) (c : JChat) : String :=
  let base := ":whapp-irc 332 " ++ nickname ++ " " ++ c.identifier ++ " :" ++ c.name
  match c.description with
  | none => base
  | some d0 =>
    let d := d0.trim
    if d = "" then base
    else base ++ ": " ++ d.replace "\n" " "

/-- MODE lines written while scanning the participant list: a self operator
grant for each participant that is the connected user and an admin. -/
def modeLines (nickname identifier : String) (ps : List JParticipant) : List String :=
  ps.filterMap fun p =>
    if p.isMe && p.isAdmin then
      some (":whapp-irc MODE " ++ identifier ++ " +o " ++ nickname)
    else none

/-- The membership listing built by the participant scan: everyone but the
connected user, admins marked with an "@" marker. -/
def namesList (ps : List JParticipant) : List String :=
  (ps.filter fun p => !p.isMe).map fun p =>
    (if p.isAdmin then "@" else "") ++ p.safeName

def namesLine (nickname : String) (c : JChat) : String :=
  ":whapp-irc 353 " ++ nickname ++ " @ " ++ c.identifier ++ " :" ++
    String.intercalate " " (namesList c.participants)

def endOfNamesLine (nickname : String) (c : JChat) : String :=
  ":whapp-irc 366 " ++ nickname ++ " " ++ c.identifier ++ " :End of /NAMES list."

/-- All IRC lines emitted by a successful (non-short-circuited) `joinChat`,
in emission order. -/
def joinLines (nickname : String) (c : JChat) : List String :=
  [joinLine nickname c.identifier, topicLine nickname c] ++
    modeLines nickname c.identifier c.participants ++
    [namesLine nickname c, endOfNamesLine nickname c]

/-- `Connection.joinChat`: errors on a nil chat or a non-group chat, is a
no-op on an already-joined chat, otherwise emits the join sequence and marks
the chat joined.  Socket writes are assumed to succeed (write failures are a
transport matter outside these claims). -/
def joinChat (nickname : String) (chat : Option JChat) :
    Except String (JChat × List String) :=
  match chat with
  | none => Except.error "chat is nil"
  | some c =>
    if !c.isGroupChat then Except.error "not a group chat"
    else if c.joined then Except.ok (c, [])
    else Except.ok ({ c with joined := true }, joinLines nickname c)

/-- Two successive `joinChat` calls on the same chat, threading the updated
chat through; returns all lines emitted by the pair of calls. -/
def joinChatTwice (nickname : String) (c : JChat) : List String :=
  match joinChat nickname (some c) with
  | Except.error _ => []
  | Except.ok (c1, out1) =>
    match joinChat nickname (some c1) with
    | Except.error _ => out1
    | Except.ok (_, out2) => out1 ++ out2

/- ## Catch-up / replay (connection.go lines 163-204)

The loop walks the connection's chat list once.  External inputs are the
replay capability flag (frozen by `caps.WaitNegotiation()` before the loop),
the platform fetch `GetMessagesFromChatTillDate` (a function from chat id and
exclusive lower bound to a message list or an error), and the success or
failure of handling each message.  Output is an event trace: watermark
writes, persistence fires, deliveries, log lines. -/

structure WChat where
  id : ChatID
  /-- `c.rawChat.Timestamp`: the chat's current raw timestamp. -/
  timestamp : Timestamp
  deriving DecidableEq, Repr

structure WMessage where
  chatID : ChatID
  timestamp : Timestamp
  deriving DecidableEq, Repr

inductive CatchupEvent
  | setWatermark (chat : ChatID) (ts : Timestamp)
  | save
  | deliver (msg : WMessage)
  | logError (e : String)
  deriving DecidableEq, Repr

/-- Modelled from the spec: `handleWhappMessage` is not under src.  Per the
spec, a successfully handled message is delivered to the client and the
chat's watermark is advanced to the message's timestamp and persisted; a
failing message produces an error.  Which messages fail is external input
(`handleOk`). -/
def handleWhappMessage (handleOk : WMessage → Bool) (m : WMap) (msg : WMessage) :
    (WMap × List CatchupEvent) × Option String :=
  if handleOk msg then
    ((tmSet m msg.chatID msg.timestamp,
      [CatchupEvent.deliver msg, CatchupEvent.save]), none)
  else ((m, []), some "handle failed")

/-- The watermark in effect for chat `c` at its turn of the catch-up loop:
the stored entry when present, otherwise the `math.MinInt64` sentinel the
code substitutes. -/
def prevEff (m : WMap) (c : WChat) : Timestamp :=
  if (tmGet m c.id).2 then (tmGet m c.id).1 else minInt64

/-- The messages the inner catch-up loop hands to `handleWhappMessage`: those
strictly above `prev`, up to (excluding) the first one whose handling
fails — a handling failure aborts the loop. -/
def deliveredOf (handleOk : WMessage → Bool) (prev : Timestamp)
    (msgs : List WMessage) : List WMessage :=
  (msgs.filter fun mg => !decide (mg.timestamp ≤ prev)).takeWhile handleOk

/-- Whether every message surviving the skip is handled successfully (the
inner loop finishes without error exactly in this case). -/
def allHandled (handleOk : WMessage → Bool) (prev : Timestamp)
    (msgs : List WMessage) : Bool :=
  (msgs.filter fun mg => !decide (mg.timestamp ≤ prev)).all handleOk

/-- Inner catch-up loop (lines 193-202): skip messages at or below the fixed
`prev` bound, hand the rest to `handleWhappMessage`; a handling error is
logged and returned, aborting the loop. -/
def catchupMessages (handleOk : WMessage → Bool) (prev : Timestamp) :
    List WMessage → WMap → List CatchupEvent →
    (WMap × List CatchupEvent) × Option String
  | [], m, evs => ((m, evs), none)
  | msg :: rest, m, evs =>
    if msg.timestamp ≤ prev then catchupMessages handleOk prev rest m evs
    else
      match handleWhappMessage handleOk m msg with
      | ((m2, evs2), none) => catchupMessages handleOk prev rest m2 (evs ++ evs2)
      | ((m2, evs2), some e) =>
        ((m2, evs ++ evs2 ++ [CatchupEvent.logError e]), some e)

/-- One chat's catch-up step (lines 167-203).  `empty` is the emptiness of
the watermark map sampled once before the loop. -/
def catchupChat (replay empty : Bool)
    (fetch : ChatID → Timestamp → Except String (List WMessage))
    (handleOk : WMessage → Bool) (m : WMap) (c : WChat) :
    (WMap × List CatchupEvent) × Option String :=
  if empty || !replay then
    ((tmSet m c.id c.timestamp,
      [CatchupEvent.setWatermark c.id c.timestamp, CatchupEvent.save]), none)
  else if c.timestamp ≤ (tmGet m c.id).1 then ((m, []), none)
  else
    match fetch c.id (prevEff m c) with
    | Except.error e => ((m, [CatchupEvent.logError e]), some e)
    | Except.ok msgs => catchupMessages handleOk (prevEff m c) msgs m []

/-- The catch-up loop over the chat list; an error from any chat's step
aborts the remaining chats (the enclosing `BindSocket` returns the error). -/
def catchupGo (replay empty : Bool)
    (fetch : ChatID → Timestamp → Except String (List WMessage))
    (handleOk : WMessage → Bool) :
    List WChat → WMap → List CatchupEvent →
    (WMap × List CatchupEvent) × Option String
  | [], m, evs => ((m, evs), none)
  | c :: cs, m, evs =>
    match catchupChat replay empty fetch handleOk m c with
    | ((m2, evs2), none) => catchupGo replay empty fetch handleOk cs m2 (evs ++ evs2)
    | ((m2, evs2), some e) => ((m2, evs ++ evs2), some e)

/-- The whole catch-up run: samples `empty := timestampMap.Length() == 0`
once, then walks the chats. -/
def catchupRun (replay : Bool)
    (fetch : ChatID → Timestamp → Except String (List WMessage))
    (handleOk : WMessage → Bool) (m0 : WMap) (chats : List WChat) :
    (WMap × List CatchupEvent) × Option String :=
  catchupGo replay (tmLength m0 == 0) fetch handleOk chats m0 []

/-- The messages delivered to the client, read off the event trace. -/
def deliveredMessages (evs : List CatchupEvent) : List WMessage :=
  evs.filterMap fun e =>
    match e with
    | CatchupEvent.deliver msg => some msg
    | _ => none

/-- The messages delivered for one particular chat. -/
def deliveredFor (evs : List CatchupEvent) (k : ChatID) : List WMessage :=
  (deliveredMessages evs).filter fun msg => msg.chatID == k

/- ## Live relay loop (connection.go lines 241-262)

The consumer drains the ordered queue slot by slot.  Each slot yields either
a resolution error or a message, which is then handed to
`handleWhappMessage`; any error is logged and the loop continues with the
next slot. -/

inductive RelayEvent
  | delivered (msg : WMessage)
  | logged (e : String)
  deriving DecidableEq, Repr

def liveRelay (handleOk : WMessage → Bool) :
    List (Except String WMessage) → List RelayEvent
  | [] => []
  | Except.error e :: rest => RelayEvent.logged e :: liveRelay handleOk rest
  | Except.ok msg :: rest =>
    if handleOk msg then RelayEvent.delivered msg :: liveRelay handleOk rest
    else RelayEvent.logged "handle failed" :: liveRelay handleOk rest

def relayDelivered (evs : List RelayEvent) : List WMessage :=
  evs.filterMap fun e =>
    match e with
    | RelayEvent.delivered msg => some msg
    | _ => none

/- ## Setup retry supervisor (connection.go lines 113-126, 142-149)

The `welcome` closure wraps `setup` in `retry.Do(..., retry.Attempts(5),
retry.Delay(time.Second))`, stopping the Session Bridge before each attempt;
`setup` itself begins by starting the bridge (line 396).  The retry library
is an external dependency; its scheduling is modelled from the spec: up to
the given number of attempts, a fixed one-second delay between consecutive
attempts, the last error surfaced when every attempt fails.  The outcome of
attempt `i` is external input `results i` (`none` = success). -/

inductive SetupEvent
  | stopBridge
  | startBridge
  | setupAttempt (ok : Bool)
  | sleepMs (ms : Nat)
  | statusMsg (s : String)
  deriving DecidableEq, Repr

/-- One attempt body: src's retry closure stops the bridge, then `setup`
starts it again and runs to its result. -/
def attemptTrace (ok : Bool) : List SetupEvent :=
  [SetupEvent.stopBridge, SetupEvent.startBridge, SetupEvent.setupAttempt ok]

/-- Modelled from the spec: the bounded-retry supervisor (`retry.Do`; the
library implementation is not part of this repository).  `n` is the attempt
budget, `i` the index of the next attempt. -/
def retryDo (results : Nat → Option String) : Nat → Nat → List SetupEvent × Option String
  | 0, _ => ([], none)
  | 1, i => (attemptTrace (results i).isNone, results i)
  | Nat.succ (Nat.succ k), i =>
    match results i with
    | none => (attemptTrace true, none)
    | some _ =>
      let rest := retryDo results (Nat.succ k) (i + 1)
      (attemptTrace false ++ [SetupEvent.sleepMs 1000] ++ rest.1, rest.2)

/-- The `welcome` closure's retry call: `retry.Attempts(5)`. -/
def welcomeSetup (results : Nat → Option String) : List SetupEvent × Option String :=
  retryDo results 5 0

/-- The NICK handler (lines 142-149): on a `welcome` error it sends the
give-up diagnostic to the client and returns, closing the connection (the
`Bool` records whether the connection is being closed). -/
def nickHandler (results : Nat → Option String) : List SetupEvent × Bool :=
  match welcomeSetup results with
  | (evs, none) => (evs, false)
  | (evs, some e) =>
    (evs ++ [SetupEvent.statusMsg ("giving up trying to setup whapp bridge: " ++ e)],
      true)

/- ## Persistence (connection.go lines 497-506 and 459-466) -/

structure ConnPersist where
  nickname : String
  localStorage : List (String × String)
  timestampMap : WMap
  deriving DecidableEq, Repr

/-- `Connection.saveDatabaseEntry`: attempts the store write (its outcome is
external input `saveResult`), logs a failure, and returns the store's error.
It only reads the connection state. -/
def saveDatabaseEntry (saveResult : Option String) (st : ConnPersist) :
    ConnPersist × List String × Option String :=
  match saveResult with
  | some e => (st, ["error while updating user entry: " ++ e], some e)
  | none => (st, [], none)

/-- The local-storage fragment of `setup` (lines 459-466): a failed
`GetLocalStorage` is logged and setup continues; on success the storage is
stored on the connection and `saveDatabaseEntry` runs, whose error `setup`
returns. -/
def setupLocalStorageStep (getLS : Except String (List (String × String)))
    (saveResult : Option String) (st : ConnPersist) : ConnPersist × Option String :=
  match getLS with
  | Except.error _ => (st, none)
  | Except.ok ls =>
    let st2 := { st with localStorage := ls }
    match saveDatabaseEntry saveResult st2 with
    | (st3, _, r) => (st3, r)

/- ## Watermark writes across the connection (for the monotonicity claim)

Every write the connection performs on the watermark map, in the order the
code can perform them: the wholesale `Swap` restore during `setup` (line
409), the no-replay / empty-map reset in catch-up (line 171), and the
per-delivered-message advance (catch-up delivery and live relay, via
`handleWhappMessage`, modelled from the spec). -/

inductive WmWrite
  | swapRestore (snapshot : WMap)
  | resetToChatTs (chat : ChatID) (ts : Timestamp)
  | deliverAdvance (chat : ChatID) (ts : Timestamp)
  deriving DecidableEq, Repr

def applyWmWrite (m : WMap) : WmWrite → WMap
  | WmWrite.swapRestore snapshot => tmSwap m snapshot
  | WmWrite.resetToChatTs chat ts => tmSet m chat ts
  | WmWrite.deliverAdvance chat ts => tmSet m chat ts

def applyWmWrites (m : WMap) : List WmWrite → WMap
  | [] => m
  | w :: ws => applyWmWrites (applyWmWrite m w) ws

/- ## Ordered Resolution Pipeline (`GetMessageQueue`, used at line 239)

Modelled from the spec: `GetMessageQueue`'s implementation is not under src.
Per the spec, each accepted event is assigned the next sequence slot; at most
`window` accepted events may be in flight at once; resolution completes in an
arbitrary order; the single consumer reads slots strictly in sequence.  The
model is a transition system over slot counters: `dispatched` slots accepted
so far, `resolvedSlots` the out-of-order completions, `consumed` the slots
already yielded downstream (recorded in `output` in yield order). -/

def messageQueueWindow : Nat := 50

structure PipeState where
  dispatched : Nat
  resolvedSlots : List Nat
  consumed : Nat
  output : List Nat
  deriving DecidableEq, Repr

def pipeInit : PipeState :=
  { dispatched := 0, resolvedSlots := [], consumed := 0, output := [] }

inductive PipeStep (window n : Nat) : PipeState → PipeState → Prop
  | dispatch (s : PipeState) :
      s.dispatched < n → s.dispatched - s.consumed < window →
      PipeStep window n s { s with dispatched := s.dispatched + 1 }
  | resolve (s : PipeState) (i : Nat) :
      i < s.dispatched → i ∉ s.resolvedSlots →
      PipeStep window n s { s with resolvedSlots := i :: s.resolvedSlots }
  | consume (s : PipeState) :
      s.consumed ∈ s.resolvedSlots →
      PipeStep window n s
        { s with consumed := s.consumed + 1, output := s.output ++ [s.consumed] }

inductive PipeReachable (window n : Nat) : PipeState → Prop
  | init : PipeReachable window n pipeInit
  | step (s t : PipeState) : PipeReachable window n s → PipeStep window n s t →
      PipeReachable window n t


/-- The event trace of `n` consecutive failing setup attempts: bridge stop,
bridge start, failed attempt, with a one-second delay between consecutive
attempts. -/
def failTrace : Nat → List SetupEvent
  | 0 => []
  | 1 => attemptTrace false
  | Nat.succ (Nat.succ k) =>
    attemptTrace false ++ [SetupEvent.sleepMs 1000] ++ failTrace (Nat.succ k)

/- ## Sample inputs for concrete evaluation -/

def sampleChatA : JChat :=
  { id := "a@g.us", name := "Alpha", identifier := "#Alpha", isGroupChat := true,
    participants := [], joined := false, description := none }

def sampleChatB : JChat :=
  { id := "b@g.us", name := "Beta", identifier := "#Beta", isGroupChat := true,
    participants := [], joined := false, description := none }

/-- A re-discovered version of `sampleChatA`: same platform ID, new name. -/
def sampleChatA2 : JChat :=
  { id := "a@g.us", name := "AlphaRenamed", identifier := "#AlphaRenamed",
    isGroupChat := true, participants := [], joined := false, description := none }

def sampleChatC : JChat :=
  { id := "c@g.us", name := "Gamma", identifier := "#Gamma", isGroupChat := true,
    participants := [], joined := false, description := none }

def sampleGroupChat : JChat :=
  { id := "grp@g.us", name := "Friends", identifier := "#Friends",
    isGroupChat := true,
    participants :=
      [{ safeName := "bob", isAdmin := true, isMe := false },
       { safeName := "carol", isAdmin := false, isMe := false },
       { safeName := "alice", isAdmin := true, isMe := true }],
    joined := false,
    description := some " weekly plans\nand chatter " }

def sampleFetchEmpty : ChatID → Timestamp → Except String (List WMessage) :=
  fun _ _ => Except.ok []

/-- A fetch whose result is out of timestamp order (the platform API makes no
ordering promise the code could rely on). -/
def sampleFetchOutOfOrder : ChatID → Timestamp → Except String (List WMessage) :=
  fun _ _ =>
    Except.ok [{ chatID := "a@c.us", timestamp := 5 },
      { chatID := "a@c.us", timestamp := 3 }]

/-- A well-behaved fetch: results belong to the requested chat and arrive in
ascending timestamp order. -/
def sampleFetchSorted : ChatID → Timestamp → Except String (List WMessage) :=
  fun k _ =>
    Except.ok [{ chatID := k, timestamp := 120 }, { chatID := k, timestamp := 140 }]

/-- A fetch returning two messages with timestamps 1 and 2 for one chat. -/
def sampleFetchTwo : ChatID → Timestamp → Except String (List WMessage) :=
  fun _ _ =>
    Except.ok [{ chatID := "a@c.us", timestamp := 1 },
      { chatID := "a@c.us", timestamp := 2 }]

/-- Pipeline states along a small concrete run: one event dispatched. -/
def pipeA : PipeState :=
  { dispatched := 1, resolvedSlots := [], consumed := 0, output := [] }

/-- ... its slot resolved ... -/
def pipeB : PipeState :=
  { dispatched := 1, resolvedSlots := [0], consumed := 0, output := [] }

/-- ... and consumed downstream. -/
def pipeSample : PipeState :=
  { dispatched := 1, resolvedSlots := [0], consumed := 1, output := [0] }

def sampleChatsW : List WChat :=
  [{ id := "a@c.us", timestamp := 5 }, { id := "b@g.us", timestamp := 7 }]

/- ## Helper lemmas -/

theorem tmGet_set_self (m : WMap) (k : ChatID) (v : Timestamp) :
    tmGet (tmSet m k v) k = (v, true) := by
  induction m with
  | nil => simp [tmSet, tmGet]
  | cons p ps ih =>
    by_cases h : p.1 == k
    · simp [tmSet, h, tmGet]
    · simpa [tmSet, h, tmGet, List.find?_cons_of_neg _ h] using ih

theorem tmSet_find_other (m : WMap) (k k' : ChatID) (v : Timestamp) (h : k' ≠ k) :
    (tmSet m k v).find? (fun p => p.1 == k') = m.find? (fun p => p.1 == k') := by
  have hkk : (k == k') = false := by
    simp only [beq_eq_false_iff_ne, ne_eq]
    exact fun e => h e.symm
  induction m with
  | nil => simp [tmSet, List.find?, hkk]
  | cons p ps ih =>
    by_cases hp : (p.1 == k) = true
    · have hpk : (p.1 == k') = false := by
        simp only [beq_iff_eq] at hp
        simp only [beq_eq_false_iff_ne, ne_eq]
        intro e
        exact h (e ▸ hp)
      simp [tmSet, hp, List.find?, hkk, hpk]
    · have hp' : (p.1 == k) = false := by simpa using hp
      by_cases hq : (p.1 == k') = true
      · simp [tmSet, hp', List.find?, hq]
      · have hq' : (p.1 == k') = false := by simpa using hq
        simp [tmSet, hp', List.find?, hq', ih]

theorem tmGet_set_other (m : WMap) (k k' : ChatID) (v : Timestamp) (h : k' ≠ k) :
    tmGet (tmSet m k v) k' = tmGet m k' := by
  unfold tmGet
  rw [tmSet_find_other m k k' v h]

theorem tmGet_set_found (m : WMap) (k k' : ChatID) (v : Timestamp)
    (h : (tmGet m k').2 = true) : (tmGet (tmSet m k v) k').2 = true := by
  by_cases e : k' = k
  · subst e; simp [tmGet_set_self]
  · rw [tmGet_set_other m k k' v e]; exact h

theorem flatMap_id_of_singleton {u : Char → List Char} :
    ∀ t : List Char, (∀ ch ∈ t, u ch = [ch]) → t.flatMap u = t := by
  intro t
  induction t with
  | nil => intro _; rfl
  | cons ch r ih =>
    intro h
    rw [List.flatMap_cons, h ch (List.mem_cons_self ch r),
      ih fun c hc => h c (List.mem_cons_of_mem ch hc)]
    rfl

/- ## C10 -/

/-- A kept character below code point 128 is an ASCII letter, digit or plus:
the two case-folding extras of the keep-set are non-ASCII. -/
theorem asciiSafe_of_ircSafe_ascii (ch : Char) (h : ircSafeChar ch = true)
    (hlt : ch.toNat < 128) : asciiSafeChar ch = true := by
  unfold ircSafeChar at h
  simp only [Bool.or_eq_true] at h
  rcases h with (h1 | h2) | h3
  · exact h1
  · have he : ch = 'K' := by simpa using h2
    rw [he] at hlt
    exact absurd hlt (by decide)
  · have he : ch = 'ſ' := by simpa using h3
    rw [he] at hlt
    exact absurd hlt (by decide)

/-- C10: for every transliteration that emits only ASCII (go-unidecode does,
by construction) and fixes the ASCII characters the regex keeps, every
character of `ircSafeString`'s output is an ASCII letter, a decimal digit,
or the plus sign — the regex keep-set's non-ASCII case-folding extras
(U+212A, U+017F) cannot survive an ASCII-only transliteration — and
`ircSafeString` is idempotent. -/
theorem c10_ircSafeString_safe_idempotent (u : Char → List Char) (s : List Char)
    (hascii : ∀ ch ch2, ch2 ∈ u ch → ch2.toNat < 128)
    (hu : ∀ ch, ch.toNat < 128 → ircSafeChar ch = true → u ch = [ch]) :
    (∀ ch ∈ ircSafeString u s, asciiSafeChar ch = true) ∧
    ircSafeString u (ircSafeString u s) = ircSafeString u s := by
  have hlt : ∀ ch ∈ ircSafeString u s, ch.toNat < 128 := by
    intro ch hch
    have h1 := (List.mem_filter.mp hch).1
    rcases List.mem_flatMap.mp h1 with ⟨a, _, ha⟩
    exact hascii a ch ha
  have hsafe : ∀ ch ∈ ircSafeString u s, ircSafeChar ch = true :=
    fun ch hch => (List.mem_filter.mp hch).2
  refine ⟨fun ch hch =>
    asciiSafe_of_ircSafe_ascii ch (hsafe ch hch) (hlt ch hch), ?_⟩
  show ((ircSafeString u s).flatMap u).filter ircSafeChar = ircSafeString u s
  rw [flatMap_id_of_singleton (ircSafeString u s)
    fun ch hch => hu ch (hlt ch hch) (hsafe ch hch)]
  exact List.filter_eq_self.mpr hsafe

theorem c10_witness :
    asciiSafeChar 'K' = true ∧
    ircSafeString unidecodeSample
        (ircSafeString unidecodeSample ['a', 'K', '!', 'B', '9', '+']) =
      ircSafeString unidecodeSample ['a', 'K', '!', 'B', '9', '+'] := by
  have hascii : ∀ ch ch2, ch2 ∈ unidecodeSample ch → ch2.toNat < 128 := by
    intro ch ch2 hch
    unfold unidecodeSample at hch
    by_cases h : ch.toNat < 128
    · rw [if_pos h] at hch
      rw [List.mem_singleton.mp hch]
      exact h
    · rw [if_neg h] at hch
      by_cases hk : (ch == 'K') = true
      · rw [if_pos hk] at hch
        rw [List.mem_singleton.mp hch]
        decide
      · rw [if_neg hk] at hch
        rw [List.mem_singleton.mp hch]
        decide
  have hu : ∀ ch, ch.toNat < 128 → ircSafeChar ch = true →
      unidecodeSample ch = [ch] := by
    intro ch hlt _
    unfold unidecodeSample
    rw [if_pos hlt]
  have h := c10_ircSafeString_safe_idempotent unidecodeSample
    ['a', 'K', '!', 'B', '9', '+'] hascii hu
  exact ⟨h.1 'K' (by decide), h.2⟩

/- ## C6 -/

theorem addChat_ids_subset (cs : List JChat) (c : JChat) :
    ∀ y ∈ (addChat cs c).map JChat.id, y = c.id ∨ y ∈ cs.map JChat.id := by
  induction cs with
  | nil =>
    intro y hy
    simp [addChat] at hy
    exact Or.inl hy
  | cons x xs ih =>
    intro y hy
    by_cases hx : (x.id == c.id) = true
    · simp only [addChat, hx, if_true, List.map_cons, List.mem_cons] at hy
      rcases hy with h1 | h2
      · exact Or.inl h1
      · exact Or.inr (by simp [h2])
    · simp only [addChat, hx, if_false, Bool.false_eq_true, List.map_cons,
        List.mem_cons] at hy
      rcases hy with h1 | h2
      · exact Or.inr (by simp [h1])
      · rcases ih y h2 with ha | hb
        · exact Or.inl ha
        · exact Or.inr (by simp [hb])

theorem addChat_nodup (cs : List JChat) (c : JChat)
    (h : (cs.map JChat.id).Nodup) : ((addChat cs c).map JChat.id).Nodup := by
  induction cs with
  | nil => simp [addChat]
  | cons x xs ih =>
    rw [List.map_cons, List.nodup_cons] at h
    by_cases hx : (x.id == c.id) = true
    · have hce : c.id = x.id := by
        have := beq_iff_eq.mp hx
        exact this.symm
      simp only [addChat, hx, if_true, List.map_cons, List.nodup_cons]
      exact ⟨hce ▸ h.1, h.2⟩
    · have hne : x.id ≠ c.id := by simpa using hx
      simp only [addChat, hx, if_false, Bool.false_eq_true, List.map_cons,
        List.nodup_cons]
      refine ⟨?_, ih h.2⟩
      intro hmem
      rcases addChat_ids_subset xs c x.id hmem with he | hm
      · exact hne he
      · exact h.1 hm

theorem addChat_mem_set (cs : List JChat) (c : JChat)
    (h : c.id ∈ cs.map JChat.id) :
    addChat cs c = cs.set (cs.findIdx fun x => x.id == c.id) c := by
  induction cs with
  | nil => simp at h
  | cons x xs ih =>
    by_cases hx : (x.id == c.id) = true
    · simp [addChat, hx, List.findIdx_cons]
    · have hcm : c.id ∈ xs.map JChat.id := by
        have h' := h
        rw [List.map_cons] at h'
        rcases List.mem_cons.mp h' with he | hm
        · exact absurd (beq_iff_eq.mpr he.symm) (by simpa using hx)
        · exact hm
      simp [addChat, hx, List.findIdx_cons, ih hcm]

theorem addChat_not_mem_append (cs : List JChat) (c : JChat)
    (h : c.id ∉ cs.map JChat.id) : addChat cs c = cs ++ [c] := by
  induction cs with
  | nil => simp [addChat]
  | cons x xs ih =>
    have hx : (x.id == c.id) = false := by
      simp only [List.map_cons, List.mem_cons] at h
      simp only [beq_eq_false_iff_ne, ne_eq]
      intro e
      exact h (Or.inl e.symm)
    have hxs : c.id ∉ xs.map JChat.id := by
      simp only [List.map_cons, List.mem_cons] at h
      exact fun hm => h (Or.inr hm)
    simp [addChat, hx, ih hxs]

theorem foldl_addChat_nodup (ops : List JChat) :
    ∀ cs : List JChat, (cs.map JChat.id).Nodup →
      ((ops.foldl addChat cs).map JChat.id).Nodup := by
  induction ops with
  | nil => intro cs h; exact h
  | cons o os ih => intro cs h; exact ih _ (addChat_nodup cs o h)

/-- C6: any sequence of `addChat` calls starting from the empty chat list
keeps the platform identifiers pairwise distinct; adding a chat whose ID is
already present replaces that entry in place at its existing position leaving
the length unchanged, and a chat with a fresh ID is appended. -/
theorem c6_addChat_unique_upsert (ops cs : List JChat) (c : JChat) :
    ((ops.foldl addChat []).map JChat.id).Nodup ∧
    (c.id ∈ cs.map JChat.id →
      (addChat cs c).length = cs.length ∧
      addChat cs c = cs.set (cs.findIdx fun x => x.id == c.id) c) ∧
    (c.id ∉ cs.map JChat.id → addChat cs c = cs ++ [c]) := by
  refine ⟨foldl_addChat_nodup ops [] (by simp), fun h => ?_,
    addChat_not_mem_append cs c⟩
  have hset := addChat_mem_set cs c h
  exact ⟨by rw [hset, List.length_set], hset⟩

theorem c6_witness :
    (([sampleChatA, sampleChatB, sampleChatA2].foldl addChat []).map
        JChat.id).Nodup ∧
    ((addChat [sampleChatA, sampleChatB] sampleChatA2).length =
        [sampleChatA, sampleChatB].length ∧
      addChat [sampleChatA, sampleChatB] sampleChatA2 =
        [sampleChatA, sampleChatB].set
          ([sampleChatA, sampleChatB].findIdx fun x => x.id == sampleChatA2.id)
          sampleChatA2) ∧
    addChat [sampleChatA, sampleChatB] sampleChatC =
      [sampleChatA, sampleChatB] ++ [sampleChatC] := by
  have h := c6_addChat_unique_upsert [sampleChatA, sampleChatB, sampleChatA2]
    [sampleChatA, sampleChatB] sampleChatA2
  have h2 := c6_addChat_unique_upsert [] [sampleChatA, sampleChatB] sampleChatC
  refine ⟨h.1, h.2.1 (by decide), h2.2.2 (by decide)⟩

/- ## C5 -/

/-- C5: `joinChat` returns the nil-chat error on a missing chat reference and
the not-a-group-chat error on a direct chat; on an already-joined chat it
returns successfully emitting nothing; and on a joinable (group, not yet
joined) chat, two successive calls emit the JOIN/TOPIC/NAMES line sequence
exactly once: the pair of calls emits exactly the one-shot `joinLines`
sequence. -/
theorem c5_joinChat_idempotent (nickname : String) (c : JChat) :
    joinChat nickname none = Except.error "chat is nil" ∧
    (c.isGroupChat = false →
      joinChat nickname (some c) = Except.error "not a group chat") ∧
    (c.isGroupChat = true → c.joined = true →
      joinChat nickname (some c) = Except.ok (c, [])) ∧
    (c.isGroupChat = true → c.joined = false →
      joinChatTwice nickname c = joinLines nickname c) := by
  refine ⟨rfl, ?_, ?_, ?_⟩
  · intro h
    simp [joinChat, h]
  · intro hg hj
    simp [joinChat, hg, hj]
  · intro hg hj
    unfold joinChatTwice
    simp [joinChat, hg, hj]

theorem c5_witness :
    sampleGroupChat.isGroupChat = true ∧ sampleGroupChat.joined = false ∧
    joinChatTwice "alice" sampleGroupChat = joinLines "alice" sampleGroupChat ∧
    joinChat "alice" (some { sampleGroupChat with joined := true }) =
      Except.ok ({ sampleGroupChat with joined := true }, []) ∧
    joinChat "alice" (some { sampleGroupChat with isGroupChat := false }) =
      Except.error "not a group chat" := by
  refine ⟨rfl, rfl,
    (c5_joinChat_idempotent "alice" sampleGroupChat).2.2.2 rfl rfl,
    (c5_joinChat_idempotent "alice" { sampleGroupChat with joined := true }).2.2.1
      rfl rfl,
    (c5_joinChat_idempotent "alice"
      { sampleGroupChat with isGroupChat := false }).2.1 rfl⟩

/- ## Catch-up helper lemmas -/

theorem deliveredMessages_append (a b : List CatchupEvent) :
    deliveredMessages (a ++ b) = deliveredMessages a ++ deliveredMessages b := by
  unfold deliveredMessages
  exact List.filterMap_append a b _

theorem deliveredFor_append (a b : List CatchupEvent) (k : ChatID) :
    deliveredFor (a ++ b) k = deliveredFor a k ++ deliveredFor b k := by
  unfold deliveredFor
  rw [deliveredMessages_append, List.filter_append]

/-- The branch-1 trace (watermark reset plus save per chat) contains no
delivery. -/
theorem deliveredMessages_resetTrace (chats : List WChat) :
    deliveredMessages (chats.flatMap fun c =>
      [CatchupEvent.setWatermark c.id c.timestamp, CatchupEvent.save]) = [] := by
  induction chats with
  | nil => rfl
  | cons c cs ih =>
    rw [List.flatMap_cons, deliveredMessages_append, ih]
    rfl

/-- When the map was empty at the start of the run or replay is not asserted,
every chat takes the reset branch: there is no error, the trace is exactly a
watermark reset followed by a save per chat, and the map accumulates the
resets. -/
theorem catchupGo_reset (replay empty : Bool)
    (fetch : ChatID → Timestamp → Except String (List WMessage))
    (handleOk : WMessage → Bool) (h : empty = true ∨ replay = false) :
    ∀ (chats : List WChat) (m : WMap) (evs : List CatchupEvent),
      catchupGo replay empty fetch handleOk chats m evs =
        ((chats.foldl (fun mm c => tmSet mm c.id c.timestamp) m,
          evs ++ chats.flatMap fun c =>
            [CatchupEvent.setWatermark c.id c.timestamp, CatchupEvent.save]),
          none) := by
  have hcond : (empty || !replay) = true := by
    rcases h with he | hr
    · rw [he]; rfl
    · rw [hr]; simp
  intro chats
  induction chats with
  | nil =>
    intro m evs
    simp [catchupGo]
  | cons c cs ih =>
    intro m evs
    have hcc : catchupChat replay empty fetch handleOk m c =
        ((tmSet m c.id c.timestamp,
          [CatchupEvent.setWatermark c.id c.timestamp, CatchupEvent.save]), none) := by
      unfold catchupChat
      rw [hcond]
      simp
    have hstep : catchupGo replay empty fetch handleOk (c :: cs) m evs =
        catchupGo replay empty fetch handleOk cs (tmSet m c.id c.timestamp)
          (evs ++ [CatchupEvent.setWatermark c.id c.timestamp, CatchupEvent.save]) := by
      show (match catchupChat replay empty fetch handleOk m c with
        | ((m2, evs2), none) =>
          catchupGo replay empty fetch handleOk cs m2 (evs ++ evs2)
        | ((m2, evs2), some e) => ((m2, evs ++ evs2), some e)) = _
      rw [hcc]
    rw [hstep, ih]
    simp [List.foldl_cons, List.flatMap_cons]

/-- A fold of watermark resets leaves every key outside the folded chats
untouched. -/
theorem tmGet_foldl_reset_untouched (chats : List WChat) :
    ∀ (m : WMap) (k : ChatID), k ∉ chats.map WChat.id →
      tmGet (chats.foldl (fun mm c => tmSet mm c.id c.timestamp) m) k = tmGet m k := by
  induction chats with
  | nil => intro m k _; rfl
  | cons c cs ih =>
    intro m k hk
    rw [List.map_cons, List.mem_cons] at hk
    push_neg at hk
    rw [List.foldl_cons, ih _ k hk.2, tmGet_set_other _ _ _ _ hk.1]

/-- After the fold of watermark resets, each (identifier-unique) chat's entry
is its own current timestamp. -/
theorem tmGet_foldl_reset (chats : List WChat) :
    ∀ m : WMap, (chats.map WChat.id).Nodup →
      ∀ c ∈ chats,
        tmGet (chats.foldl (fun mm c => tmSet mm c.id c.timestamp) m) c.id =
          (c.timestamp, true) := by
  induction chats with
  | nil => intro m _ c hc; exact absurd hc (List.not_mem_nil c)
  | cons x xs ih =>
    intro m hnd c hc
    rw [List.map_cons, List.nodup_cons] at hnd
    rcases List.mem_cons.mp hc with he | hm
    · subst he
      rw [List.foldl_cons, tmGet_foldl_reset_untouched xs _ c.id hnd.1,
        tmGet_set_self]
    · exact ih _ hnd.2 c hm

/- ## C1 -/

/-- C1: when the watermark map was entirely empty before the catch-up run or
the client has not asserted the whapp-irc/replay capability, catch-up
finishes without error, emits exactly a watermark reset (to the chat's
current raw timestamp) followed by a persistence save for each chat, and for
every chat in the (identifier-unique) chat list delivers zero historical
messages and leaves the chat's watermark at its current raw timestamp. -/
theorem c1_empty_or_no_replay_resets (replay : Bool)
    (fetch : ChatID → Timestamp → Except String (List WMessage))
    (handleOk : WMessage → Bool) (m0 : WMap) (chats : List WChat)
    (hids : (chats.map WChat.id).Nodup)
    (h : tmLength m0 = 0 ∨ replay = false) :
    (catchupRun replay fetch handleOk m0 chats).2 = none ∧
    (catchupRun replay fetch handleOk m0 chats).1.2 =
      (chats.flatMap fun c =>
        [CatchupEvent.setWatermark c.id c.timestamp, CatchupEvent.save]) ∧
    ∀ c ∈ chats,
      deliveredFor (catchupRun replay fetch handleOk m0 chats).1.2 c.id = [] ∧
      tmGet (catchupRun replay fetch handleOk m0 chats).1.1 c.id =
        (c.timestamp, true) := by
  have h' : (tmLength m0 == 0) = true ∨ replay = false := by
    rcases h with he | hr
    · exact Or.inl (by simpa using he)
    · exact Or.inr hr
  have hrun := catchupGo_reset replay (tmLength m0 == 0) fetch handleOk h' chats m0 []
  unfold catchupRun
  rw [hrun]
  refine ⟨rfl, by simp, fun c hc => ?_⟩
  constructor
  · show deliveredFor ([] ++ _) c.id = []
    unfold deliveredFor
    rw [deliveredMessages_append, deliveredMessages_resetTrace]
    rfl
  · exact tmGet_foldl_reset chats m0 hids c hc

theorem c1_witness :
    (catchupRun false sampleFetchEmpty (fun _ => true) [("a@c.us", 3)]
        sampleChatsW).2 = none ∧
    deliveredFor
        (catchupRun false sampleFetchEmpty (fun _ => true) [("a@c.us", 3)]
          sampleChatsW).1.2 "a@c.us" = [] ∧
    tmGet
        (catchupRun false sampleFetchEmpty (fun _ => true) [("a@c.us", 3)]
          sampleChatsW).1.1 "a@c.us" = (5, true) := by
  have h := c1_empty_or_no_replay_resets false sampleFetchEmpty (fun _ => true)
    [("a@c.us", 3)] sampleChatsW (by decide) (Or.inr rfl)
  have hc := h.2.2 { id := "a@c.us", timestamp := 5 } (by
    show _ ∈ sampleChatsW
    unfold sampleChatsW
    exact List.mem_cons_self _ _)
  exact ⟨h.1, hc.1, hc.2⟩

/- ## Inner-loop characterisation -/

/-- Full characterisation of the inner catch-up loop: it delivers exactly
`deliveredOf` (skip below the fixed bound, stop at the first handling
failure), folds the corresponding watermark advances into the map, and
errors out exactly when some surviving message fails to handle. -/
theorem catchupMessages_eq (handleOk : WMessage → Bool) (prev : Timestamp) :
    ∀ (msgs : List WMessage) (m : WMap) (evs : List CatchupEvent),
      catchupMessages handleOk prev msgs m evs =
        (((deliveredOf handleOk prev msgs).foldl
            (fun mm mg => tmSet mm mg.chatID mg.timestamp) m,
          evs ++ ((deliveredOf handleOk prev msgs).flatMap
              fun mg => [CatchupEvent.deliver mg, CatchupEvent.save]) ++
            (if allHandled handleOk prev msgs then []
              else [CatchupEvent.logError "handle failed"])),
          if allHandled handleOk prev msgs then none else some "handle failed") := by
  intro msgs
  induction msgs with
  | nil =>
    intro m evs
    simp [catchupMessages, deliveredOf, allHandled]
  | cons msg rest ih =>
    intro m evs
    by_cases hle : msg.timestamp ≤ prev
    · have hpred : (!decide (msg.timestamp ≤ prev)) = false := by simp [hle]
      have hstep : catchupMessages handleOk prev (msg :: rest) m evs =
          catchupMessages handleOk prev rest m evs := by
        show (if msg.timestamp ≤ prev then catchupMessages handleOk prev rest m evs
          else match handleWhappMessage handleOk m msg with
            | ((m2, evs2), none) => catchupMessages handleOk prev rest m2 (evs ++ evs2)
            | ((m2, evs2), some e) =>
              ((m2, evs ++ evs2 ++ [CatchupEvent.logError e]), some e)) = _
        rw [if_pos hle]
      rw [hstep, ih]
      simp only [deliveredOf, allHandled, List.filter_cons, hpred,
        Bool.false_eq_true, if_false]
    · have hpred : (!decide (msg.timestamp ≤ prev)) = true := by simp [hle]
      by_cases hok : handleOk msg = true
      · have hstep : catchupMessages handleOk prev (msg :: rest) m evs =
            catchupMessages handleOk prev rest
              (tmSet m msg.chatID msg.timestamp)
              (evs ++ [CatchupEvent.deliver msg, CatchupEvent.save]) := by
          show (if msg.timestamp ≤ prev then catchupMessages handleOk prev rest m evs
            else match handleWhappMessage handleOk m msg with
              | ((m2, evs2), none) => catchupMessages handleOk prev rest m2 (evs ++ evs2)
              | ((m2, evs2), some e) =>
                ((m2, evs ++ evs2 ++ [CatchupEvent.logError e]), some e)) = _
          rw [if_neg hle]
          rw [show handleWhappMessage handleOk m msg =
            ((tmSet m msg.chatID msg.timestamp,
              [CatchupEvent.deliver msg, CatchupEvent.save]), none) by
            unfold handleWhappMessage
            rw [if_pos hok]]
        rw [hstep, ih]
        simp only [deliveredOf, allHandled, List.filter_cons, hpred, if_true,
          List.takeWhile_cons, hok, List.all_cons, Bool.true_and,
          List.foldl_cons, List.flatMap_cons, List.append_assoc]
      · have hokf : handleOk msg = false := by simpa using hok
        have hstep : catchupMessages handleOk prev (msg :: rest) m evs =
            ((m, evs ++ [] ++ [CatchupEvent.logError "handle failed"]),
              some "handle failed") := by
          show (if msg.timestamp ≤ prev then catchupMessages handleOk prev rest m evs
            else match handleWhappMessage handleOk m msg with
              | ((m2, evs2), none) => catchupMessages handleOk prev rest m2 (evs ++ evs2)
              | ((m2, evs2), some e) =>
                ((m2, evs ++ evs2 ++ [CatchupEvent.logError e]), some e)) = _
          rw [if_neg hle]
          rw [show handleWhappMessage handleOk m msg =
            ((m, []), some "handle failed") by
            unfold handleWhappMessage
            rw [if_neg (by simp [hokf])]]
        rw [hstep]
        simp only [deliveredOf, allHandled, List.filter_cons, hpred, if_true,
          List.takeWhile_cons, hokf, List.all_cons, Bool.false_and,
          Bool.false_eq_true, if_false]
        simp

theorem deliveredOf_sublist (handleOk : WMessage → Bool) (prev : Timestamp)
    (msgs : List WMessage) : (deliveredOf handleOk prev msgs).Sublist msgs :=
  (List.takeWhile_sublist _).trans (List.filter_sublist _)

theorem deliveredOf_mem (handleOk : WMessage → Bool) (prev : Timestamp)
    (msgs : List WMessage) (mg : WMessage)
    (h : mg ∈ deliveredOf handleOk prev msgs) :
    mg ∈ msgs ∧ prev < mg.timestamp := by
  have h1 : mg ∈ msgs.filter fun mg => !decide (mg.timestamp ≤ prev) :=
    List.Sublist.mem h (List.takeWhile_sublist _)
  have h2 := List.mem_filter.mp h1
  refine ⟨h2.1, ?_⟩
  have h3 := h2.2
  simp only [Bool.not_eq_true', decide_eq_false_iff_not] at h3
  exact not_le.mp h3

theorem deliveredMessages_deliverTrace (l : List WMessage) :
    deliveredMessages (l.flatMap fun mg =>
      [CatchupEvent.deliver mg, CatchupEvent.save]) = l := by
  induction l with
  | nil => rfl
  | cons mg rest ih =>
    rw [List.flatMap_cons, deliveredMessages_append, ih]
    rfl

theorem deliveredFor_deliverTrace (l : List WMessage) (k : ChatID) :
    deliveredFor (l.flatMap fun mg =>
      [CatchupEvent.deliver mg, CatchupEvent.save]) k =
      l.filter fun mg => mg.chatID == k := by
  unfold deliveredFor
  rw [deliveredMessages_deliverTrace]

theorem tmGet_foldl_msgs_untouched (l : List WMessage) :
    ∀ (m : WMap) (k : ChatID), (∀ mg ∈ l, mg.chatID ≠ k) →
      tmGet (l.foldl (fun mm mg => tmSet mm mg.chatID mg.timestamp) m) k =
        tmGet m k := by
  induction l with
  | nil => intro m k _; rfl
  | cons mg rest ih =>
    intro m k h
    rw [List.foldl_cons, ih _ k fun x hx => h x (List.mem_cons_of_mem mg hx),
      tmGet_set_other _ _ _ _ (Ne.symm (h mg (List.mem_cons_self mg rest)))]

/-- One unfolding step of the catch-up loop over the chat list. -/
theorem catchupGo_cons (replay empty : Bool)
    (fetch : ChatID → Timestamp → Except String (List WMessage))
    (handleOk : WMessage → Bool) (c : WChat) (cs : List WChat) (m : WMap)
    (evs : List CatchupEvent) :
    catchupGo replay empty fetch handleOk (c :: cs) m evs =
      match catchupChat replay empty fetch handleOk m c with
      | ((m2, evs2), none) =>
        catchupGo replay empty fetch handleOk cs m2 (evs ++ evs2)
      | ((m2, evs2), some e) => ((m2, evs ++ evs2), some e) := rfl

/-- One catch-up step neither writes another chat's watermark entry nor
delivers a message filed under another chat, provided the platform returns
only messages belonging to the chat it was asked about. -/
theorem catchupChat_untouched (replay empty : Bool)
    (fetch : ChatID → Timestamp → Except String (List WMessage))
    (handleOk : WMessage → Bool) (m : WMap) (c : WChat) (k : ChatID)
    (hk : k ≠ c.id)
    (hfid : ∀ p msgs, fetch c.id p = Except.ok msgs →
      ∀ mg ∈ msgs, mg.chatID = c.id) :
    tmGet ((catchupChat replay empty fetch handleOk m c).1.1) k = tmGet m k ∧
    deliveredFor ((catchupChat replay empty fetch handleOk m c).1.2) k = [] := by
  unfold catchupChat
  by_cases h1 : (empty || !replay) = true
  · rw [if_pos h1]
    exact ⟨tmGet_set_other m c.id k c.timestamp hk,
      by simp [deliveredFor, deliveredMessages]⟩
  · rw [if_neg h1]
    by_cases h2 : c.timestamp ≤ (tmGet m c.id).1
    · rw [if_pos h2]
      exact ⟨rfl, rfl⟩
    · rw [if_neg h2]
      cases hf : fetch c.id (prevEff m c) with
      | error e =>
        exact ⟨rfl, by simp [deliveredFor, deliveredMessages]⟩
      | ok msgs =>
        show tmGet ((catchupMessages handleOk (prevEff m c) msgs m []).1.1) k =
            tmGet m k ∧
          deliveredFor ((catchupMessages handleOk (prevEff m c) msgs m []).1.2) k = []
        rw [catchupMessages_eq]
        have hmem : ∀ mg ∈ deliveredOf handleOk (prevEff m c) msgs,
            mg.chatID ≠ k := by
          intro mg hmg
          rw [hfid _ msgs hf mg (deliveredOf_mem _ _ _ mg hmg).1]
          exact Ne.symm hk
        have hnil : (deliveredOf handleOk (prevEff m c) msgs).filter
            (fun mg => mg.chatID == k) = [] := by
          rw [List.filter_eq_nil_iff]
          intro mg hmg
          simp [hmem mg hmg]
        refine ⟨tmGet_foldl_msgs_untouched _ _ k hmem, ?_⟩
        show deliveredFor ([] ++
            (((deliveredOf handleOk (prevEff m c) msgs).flatMap fun mg =>
              [CatchupEvent.deliver mg, CatchupEvent.save]) ++
            (if allHandled handleOk (prevEff m c) msgs then []
              else [CatchupEvent.logError "handle failed"]))) k = []
        rw [List.nil_append, deliveredFor_append, deliveredFor_deliverTrace, hnil]
        cases allHandled handleOk (prevEff m c) msgs <;>
          simp [deliveredFor, deliveredMessages]

/-- What one catch-up step delivers for its own chat: either nothing (the
reset, no-op, and fetch-error branches), or exactly `deliveredOf` — the
fetch result for the chat at its in-effect watermark, skip-filtered and cut
at the first handling failure, in fetch order. -/
theorem catchupChat_delivered_cases (replay empty : Bool)
    (fetch : ChatID → Timestamp → Except String (List WMessage))
    (handleOk : WMessage → Bool) (m : WMap) (c : WChat)
    (hfid : ∀ p msgs, fetch c.id p = Except.ok msgs →
      ∀ mg ∈ msgs, mg.chatID = c.id) :
    deliveredFor ((catchupChat replay empty fetch handleOk m c).1.2) c.id = [] ∨
    (∃ msgs, fetch c.id (prevEff m c) = Except.ok msgs ∧
      deliveredFor ((catchupChat replay empty fetch handleOk m c).1.2) c.id =
        deliveredOf handleOk (prevEff m c) msgs) := by
  unfold catchupChat
  by_cases h1 : (empty || !replay) = true
  · rw [if_pos h1]
    exact Or.inl (by simp [deliveredFor, deliveredMessages])
  · rw [if_neg h1]
    by_cases h2 : c.timestamp ≤ (tmGet m c.id).1
    · rw [if_pos h2]
      exact Or.inl rfl
    · rw [if_neg h2]
      cases hf : fetch c.id (prevEff m c) with
      | error e =>
        exact Or.inl (by simp [deliveredFor, deliveredMessages])
      | ok msgs =>
        refine Or.inr ⟨msgs, rfl, ?_⟩
        show deliveredFor
            ((catchupMessages handleOk (prevEff m c) msgs m []).1.2) c.id =
          deliveredOf handleOk (prevEff m c) msgs
        have hev : (catchupMessages handleOk (prevEff m c) msgs m []).1.2 =
            (((deliveredOf handleOk (prevEff m c) msgs).flatMap fun mg =>
              [CatchupEvent.deliver mg, CatchupEvent.save]) ++
            (if allHandled handleOk (prevEff m c) msgs then []
              else [CatchupEvent.logError "handle failed"])) := by
          rw [catchupMessages_eq]
          simp only [List.nil_append]
        rw [hev, deliveredFor_append, deliveredFor_deliverTrace]
        have hkeep : (deliveredOf handleOk (prevEff m c) msgs).filter
            (fun mg => mg.chatID == c.id) =
            deliveredOf handleOk (prevEff m c) msgs := by
          rw [List.filter_eq_self]
          intro mg hmg
          simp [hfid _ msgs hf mg (deliveredOf_mem _ _ _ mg hmg).1]
        rw [hkeep]
        cases allHandled handleOk (prevEff m c) msgs <;>
          simp [deliveredFor, deliveredMessages]

/-- The catch-up loop leaves alone the watermark entries and deliveries of
every chat identifier outside the processed list. -/
theorem catchupGo_untouched (replay empty : Bool)
    (fetch : ChatID → Timestamp → Except String (List WMessage))
    (handleOk : WMessage → Bool)
    (hfid : ∀ k2 p msgs, fetch k2 p = Except.ok msgs →
      ∀ mg ∈ msgs, mg.chatID = k2) :
    ∀ (cs : List WChat) (m : WMap) (evs : List CatchupEvent) (k : ChatID),
      k ∉ cs.map WChat.id →
      tmGet ((catchupGo replay empty fetch handleOk cs m evs).1.1) k = tmGet m k ∧
      deliveredFor ((catchupGo replay empty fetch handleOk cs m evs).1.2) k =
        deliveredFor evs k := by
  intro cs
  induction cs with
  | nil => intro m evs k _; exact ⟨rfl, rfl⟩
  | cons c cs2 ih =>
    intro m evs k hk
    rw [List.map_cons, List.mem_cons] at hk
    push_neg at hk
    have hstep := catchupChat_untouched replay empty fetch handleOk m c k hk.1
      (fun p msgs hh => hfid c.id p msgs hh)
    rcases hres : catchupChat replay empty fetch handleOk m c with ⟨⟨m2, evs2⟩, err⟩
    rw [hres] at hstep
    cases err with
    | none =>
      have hgo : catchupGo replay empty fetch handleOk (c :: cs2) m evs =
          catchupGo replay empty fetch handleOk cs2 m2 (evs ++ evs2) := by
        simp only [catchupGo_cons, hres]
      rw [hgo]
      have hih := ih m2 (evs ++ evs2) k hk.2
      refine ⟨?_, ?_⟩
      · rw [hih.1, hstep.1]
      · rw [hih.2, deliveredFor_append, hstep.2, List.append_nil]
    | some e =>
      have hgo : catchupGo replay empty fetch handleOk (c :: cs2) m evs =
          ((m2, evs ++ evs2), some e) := by
        simp only [catchupGo_cons, hres]
      rw [hgo]
      exact ⟨hstep.1, by
        show deliveredFor (evs ++ evs2) k = deliveredFor evs k
        rw [deliveredFor_append, hstep.2, List.append_nil]⟩

/-- Across the whole catch-up loop, what is delivered for a chat in the
(identifier-unique) list beyond the pre-existing trace is either nothing or
exactly the skip-filtered, failure-cut fetch result for that chat at its
in-effect watermark, in fetch order. -/
theorem catchupGo_delivered_cases (replay empty : Bool)
    (fetch : ChatID → Timestamp → Except String (List WMessage))
    (handleOk : WMessage → Bool)
    (hfid : ∀ k2 p msgs, fetch k2 p = Except.ok msgs →
      ∀ mg ∈ msgs, mg.chatID = k2) :
    ∀ (cs : List WChat) (m : WMap) (evs : List CatchupEvent),
      (cs.map WChat.id).Nodup →
      ∀ c ∈ cs,
        deliveredFor ((catchupGo replay empty fetch handleOk cs m evs).1.2) c.id =
          deliveredFor evs c.id ∨
        (∃ msgs, fetch c.id (prevEff m c) = Except.ok msgs ∧
          deliveredFor ((catchupGo replay empty fetch handleOk cs m evs).1.2) c.id =
            deliveredFor evs c.id ++ deliveredOf handleOk (prevEff m c) msgs) := by
  intro cs
  induction cs with
  | nil =>
    intro m evs _ c hc
    exact absurd hc (List.not_mem_nil c)
  | cons x xs ih =>
    intro m evs hnd c hc
    rw [List.map_cons, List.nodup_cons] at hnd
    have hself := catchupChat_delivered_cases replay empty fetch handleOk m x
      (fun p msgs hh => hfid x.id p msgs hh)
    rcases hres : catchupChat replay empty fetch handleOk m x with ⟨⟨m2, evs2⟩, err⟩
    rw [hres] at hself
    rcases List.mem_cons.mp hc with he | hm
    · subst he
      have hdecomp : deliveredFor
          ((catchupGo replay empty fetch handleOk (c :: xs) m evs).1.2) c.id =
          deliveredFor evs c.id ++ deliveredFor evs2 c.id := by
        cases err with
        | none =>
          have hgo : catchupGo replay empty fetch handleOk (c :: xs) m evs =
              catchupGo replay empty fetch handleOk xs m2 (evs ++ evs2) := by
            simp only [catchupGo_cons, hres]
          rw [hgo]
          have huntouched := catchupGo_untouched replay empty fetch handleOk hfid
            xs m2 (evs ++ evs2) c.id hnd.1
          rw [huntouched.2, deliveredFor_append]
        | some e =>
          have hgo : catchupGo replay empty fetch handleOk (c :: xs) m evs =
              ((m2, evs ++ evs2), some e) := by
            simp only [catchupGo_cons, hres]
          rw [hgo]
          show deliveredFor (evs ++ evs2) c.id = _
          rw [deliveredFor_append]
      rcases hself with hnil | ⟨msgs, hf, heq⟩
      · rw [hdecomp, hnil, List.append_nil]
        exact Or.inl rfl
      · rw [hdecomp, heq]
        exact Or.inr ⟨msgs, hf, rfl⟩
    · have hck : c.id ≠ x.id := by
        intro e
        exact hnd.1 (e ▸ (List.mem_map.mpr ⟨c, hm, rfl⟩))
      have hstep := catchupChat_untouched replay empty fetch handleOk m x c.id hck
        (fun p msgs hh => hfid x.id p msgs hh)
      rw [hres] at hstep
      have hprev : prevEff m2 c = prevEff m c := by
        unfold prevEff
        rw [hstep.1]
      cases err with
      | none =>
        have hgo : catchupGo replay empty fetch handleOk (x :: xs) m evs =
            catchupGo replay empty fetch handleOk xs m2 (evs ++ evs2) := by
          simp only [catchupGo_cons, hres]
        rw [hgo]
        have hmid : deliveredFor (evs ++ evs2) c.id = deliveredFor evs c.id := by
          rw [deliveredFor_append, hstep.2, List.append_nil]
        rcases ih m2 (evs ++ evs2) hnd.2 c hm with h1 | ⟨msgs, hf2, heq⟩
        · rw [hmid] at h1
          exact Or.inl h1
        · rw [hmid, hprev] at heq
          rw [hprev] at hf2
          exact Or.inr ⟨msgs, hf2, heq⟩
      | some e =>
        have hgo : catchupGo replay empty fetch handleOk (x :: xs) m evs =
            ((m2, evs ++ evs2), some e) := by
          simp only [catchupGo_cons, hres]
        rw [hgo]
        refine Or.inl ?_
        show deliveredFor (evs ++ evs2) c.id = _
        rw [deliveredFor_append, hstep.2, List.append_nil]

/- ## C2 -/

/-- C2 counterexample: with a stored watermark of 1 for the chat and an
out-of-order fetch result (timestamps 5 then 3, both above the watermark),
catch-up delivers the messages in fetch order, 5 then 3 — so the delivered
sequence is not non-decreasing in timestamp and the claim as stated is
false: the skip compares against the fixed initial watermark, not a running
one, and cannot reorder or drop an out-of-order fetch result. -/
theorem c2_counterexample :
    (deliveredFor (catchupRun true sampleFetchOutOfOrder (fun _ => true)
        [("a@c.us", 1)] [{ id := "a@c.us", timestamp := 10 }]).1.2 "a@c.us").map
      WMessage.timestamp = [5, 3] ∧
    ¬ ((deliveredFor (catchupRun true sampleFetchOutOfOrder (fun _ => true)
        [("a@c.us", 1)] [{ id := "a@c.us", timestamp := 10 }]).1.2 "a@c.us").map
      WMessage.timestamp).Pairwise (· ≤ ·) := by
  constructor
  · decide
  · decide

/-- C2 (amended): for every chat in the (identifier-unique) chat list and
every watermark state, every historical message catch-up delivers for that
chat has timestamp strictly greater than the watermark in effect at the
start of catch-up for that chat (the stored entry, or the MinInt64 sentinel
when no entry exists) — unconditionally; the deliveries preserve the
platform fetch order (they are an ordered subsequence of the chat's fetch
result); and consequently the delivered sequence is non-decreasing in
timestamp whenever that chat's fetch results are non-decreasing — but not
otherwise, see the counterexample. -/
theorem c2_amended_catchup_delivery (replay : Bool)
    (fetch : ChatID → Timestamp → Except String (List WMessage))
    (handleOk : WMessage → Bool) (m0 : WMap) (chats : List WChat)
    (hids : (chats.map WChat.id).Nodup)
    (hfid : ∀ k p msgs, fetch k p = Except.ok msgs → ∀ mg ∈ msgs, mg.chatID = k) :
    ∀ c ∈ chats,
      (∀ mg ∈ deliveredFor (catchupRun replay fetch handleOk m0 chats).1.2 c.id,
        prevEff m0 c < mg.timestamp) ∧
      (∀ msgs, fetch c.id (prevEff m0 c) = Except.ok msgs →
        (deliveredFor (catchupRun replay fetch handleOk m0 chats).1.2
          c.id).Sublist msgs) ∧
      ((∀ p msgs, fetch c.id p = Except.ok msgs →
          (msgs.map WMessage.timestamp).Pairwise (· ≤ ·)) →
        ((deliveredFor (catchupRun replay fetch handleOk m0 chats).1.2 c.id).map
          WMessage.timestamp).Pairwise (· ≤ ·)) := by
  intro c hc
  unfold catchupRun
  have h := catchupGo_delivered_cases replay (tmLength m0 == 0) fetch handleOk
    hfid chats m0 [] hids c hc
  have h00 : deliveredFor ([] : List CatchupEvent) c.id = [] := rfl
  rcases h with h0 | ⟨msgs, hf, heq⟩
  · rw [h00] at h0
    rw [h0]
    refine ⟨fun mg hmg => absurd hmg (List.not_mem_nil mg),
      fun msgs _ => List.nil_sublist msgs, fun _ => List.Pairwise.nil⟩
  · rw [h00, List.nil_append] at heq
    rw [heq]
    refine ⟨fun mg hmg => (deliveredOf_mem _ _ _ mg hmg).2, ?_, ?_⟩
    · intro msgs0 hm0
      rw [hf] at hm0
      injection hm0 with he
      rw [← he]
      exact deliveredOf_sublist handleOk (prevEff m0 c) msgs
    · intro hsorted
      exact List.Pairwise.sublist
        ((deliveredOf_sublist handleOk (prevEff m0 c) msgs).map
          WMessage.timestamp)
        (hsorted _ msgs hf)

theorem c2_witness :
    prevEff [("c1@g.us", 100)] { id := "c1@g.us", timestamp := 150 } <
      WMessage.timestamp { chatID := "c1@g.us", timestamp := 120 } ∧
    (deliveredFor (catchupRun true sampleFetchSorted (fun _ => true)
        [("c1@g.us", 100)] [{ id := "c1@g.us", timestamp := 150 }]).1.2
      "c1@g.us").Sublist
      [{ chatID := "c1@g.us", timestamp := 120 },
       { chatID := "c1@g.us", timestamp := 140 }] ∧
    ((deliveredFor (catchupRun true sampleFetchSorted (fun _ => true)
        [("c1@g.us", 100)] [{ id := "c1@g.us", timestamp := 150 }]).1.2
      "c1@g.us").map WMessage.timestamp).Pairwise (· ≤ ·) := by
  have hfid : ∀ k p msgs, sampleFetchSorted k p = Except.ok msgs →
      ∀ mg ∈ msgs, mg.chatID = k := by
    intro k p msgs hh mg hmg
    simp only [sampleFetchSorted, Except.ok.injEq] at hh
    subst hh
    rcases List.mem_cons.mp hmg with h1 | h2
    · rw [h1]
    · rcases List.mem_cons.mp h2 with h3 | h4
      · rw [h3]
      · exact absurd h4 (List.not_mem_nil mg)
  have hsorted : ∀ p msgs, sampleFetchSorted "c1@g.us" p = Except.ok msgs →
      (msgs.map WMessage.timestamp).Pairwise (· ≤ ·) := by
    intro p msgs hh
    simp only [sampleFetchSorted, Except.ok.injEq] at hh
    subst hh
    decide
  have h := c2_amended_catchup_delivery true sampleFetchSorted (fun _ => true)
    [("c1@g.us", 100)] [{ id := "c1@g.us", timestamp := 150 }] (by decide)
    hfid { id := "c1@g.us", timestamp := 150 } (List.mem_cons_self _ _)
  exact ⟨h.1 { chatID := "c1@g.us", timestamp := 120 } (by decide),
    h.2.1 [{ chatID := "c1@g.us", timestamp := 120 },
      { chatID := "c1@g.us", timestamp := 140 }] rfl,
    h.2.2 hsorted⟩

/- ## C3 -/

theorem liveRelay_length (handleOk : WMessage → Bool) :
    ∀ futures : List (Except String WMessage),
      (liveRelay handleOk futures).length = futures.length := by
  intro futures
  induction futures with
  | nil => rfl
  | cons f rest ih =>
    cases f with
    | error e => simpa [liveRelay] using ih
    | ok mg =>
      by_cases h : handleOk mg = true
      · simpa [liveRelay, h] using ih
      · simp only [liveRelay, h]
        simpa [Bool.false_eq_true] using ih

theorem relayDelivered_liveRelay (handleOk : WMessage → Bool) :
    ∀ futures : List (Except String WMessage),
      relayDelivered (liveRelay handleOk futures) =
        futures.filterMap fun f =>
          match f with
          | Except.ok mg => if handleOk mg then some mg else none
          | Except.error _ => none := by
  intro futures
  induction futures with
  | nil => rfl
  | cons f rest ih =>
    cases f with
    | error e =>
      simp only [liveRelay, List.filterMap_cons]
      simpa [relayDelivered] using ih
    | ok mg =>
      by_cases h : handleOk mg = true
      · simp only [liveRelay, h, if_true, List.filterMap_cons]
        simpa [relayDelivered, h] using ih
      · have hf : handleOk mg = false := by simpa using h
        simp only [liveRelay, hf, Bool.false_eq_true, if_false, List.filterMap_cons]
        simpa [relayDelivered] using ih

/-- C3 counterexample: in catch-up, a single message whose handling fails
terminates the whole run with the error — the second message, whose handling
would have succeeded, is never delivered.  This contradicts the claim that a
per-message failure never terminates the catch-up loop (it does hold for the
live-relay stream, see the amended theorem). -/
theorem c3_counterexample :
    (catchupRun true sampleFetchTwo (fun mg => mg.timestamp != 1)
        [("a@c.us", 0)] [{ id := "a@c.us", timestamp := 10 }]).2 =
      some "handle failed" ∧
    deliveredMessages ((catchupRun true sampleFetchTwo
        (fun mg => mg.timestamp != 1)
        [("a@c.us", 0)] [{ id := "a@c.us", timestamp := 10 }]).1.2) = [] ∧
    (({ chatID := "a@c.us", timestamp := 2 } : WMessage).timestamp != 1) = true := by
  refine ⟨?_, ?_, ?_⟩ <;> decide

/-- C3 (amended): during live relay a per-message failure (resolution or
handling) is logged and only that message is skipped — every slot of the
stream is processed and every successful message is delivered no matter how
many earlier messages failed.  During catch-up, by contrast, a message
handling failure is logged and aborts the run with the error: catch-up
finishes without error exactly when every message above the watermark is
handled, and it delivers exactly the prefix of surviving messages up to the
first handling failure. -/
theorem c3_per_message_errors (handleOk : WMessage → Bool)
    (futures : List (Except String WMessage)) (prev : Timestamp)
    (msgs : List WMessage) (m : WMap) :
    (liveRelay handleOk futures).length = futures.length ∧
    relayDelivered (liveRelay handleOk futures) =
      (futures.filterMap fun f =>
        match f with
        | Except.ok mg => if handleOk mg then some mg else none
        | Except.error _ => none) ∧
    ((catchupMessages handleOk prev msgs m []).2 = none ↔
      allHandled handleOk prev msgs = true) ∧
    deliveredMessages ((catchupMessages handleOk prev msgs m []).1.2) =
      deliveredOf handleOk prev msgs := by
  refine ⟨liveRelay_length handleOk futures,
    relayDelivered_liveRelay handleOk futures, ?_, ?_⟩
  · rw [show (catchupMessages handleOk prev msgs m []).2 =
        (if allHandled handleOk prev msgs then none else some "handle failed") by
      rw [catchupMessages_eq]]
    cases h : allHandled handleOk prev msgs <;> simp
  · have hev : (catchupMessages handleOk prev msgs m []).1.2 =
        (((deliveredOf handleOk prev msgs).flatMap fun mg =>
          [CatchupEvent.deliver mg, CatchupEvent.save]) ++
        (if allHandled handleOk prev msgs then []
          else [CatchupEvent.logError "handle failed"])) := by
      rw [catchupMessages_eq]
      simp only [List.nil_append]
    rw [hev, deliveredMessages_append, deliveredMessages_deliverTrace]
    cases allHandled handleOk prev msgs <;> simp [deliveredMessages]

/- ## C4 -/

/-- When every attempt fails, the retry supervisor produces the failing trace
and surfaces the error of the last attempt made. -/
theorem retryDo_all_fail (results : Nat → Option String) (errs : Nat → String)
    (hfail : ∀ i, results i = some (errs i)) :
    ∀ k i, retryDo results (k + 1) i = (failTrace (k + 1), some (errs (i + k))) := by
  intro k
  induction k with
  | zero =>
    intro i
    show (attemptTrace (results i).isNone, results i) = _
    rw [hfail i]
    rfl
  | succ k ih =>
    intro i
    show (match results i with
      | none => (attemptTrace true, none)
      | some _ =>
        let rest := retryDo results (Nat.succ k) (i + 1)
        (attemptTrace false ++ [SetupEvent.sleepMs 1000] ++ rest.1, rest.2)) = _
    rw [hfail i]
    show (attemptTrace false ++ [SetupEvent.sleepMs 1000] ++
        (retryDo results (Nat.succ k) (i + 1)).1,
      (retryDo results (Nat.succ k) (i + 1)).2) = _
    rw [show Nat.succ k = k + 1 from rfl, ih (i + 1)]
    have hidx : i + 1 + k = i + (k + 1) := by omega
    rw [hidx]
    rfl

/-- C4: when setup fails on every attempt, the supervisor stops the Session
Bridge before each attempt (and setup restarts it), makes exactly 5 attempts
with a fixed one-second delay between consecutive attempts, surfaces the
error of the 5th (last) attempt, and the NICK handler then sends the give-up
diagnostic carrying that error to the client and closes the connection. -/
theorem c4_setup_retry_exhaustion (results : Nat → Option String)
    (errs : Nat → String) (hfail : ∀ i, results i = some (errs i)) :
    welcomeSetup results = (failTrace 5, some (errs 4)) ∧
    nickHandler results =
      (failTrace 5 ++ [SetupEvent.statusMsg
        ("giving up trying to setup whapp bridge: " ++ errs 4)], true) ∧
    (failTrace 5).count SetupEvent.stopBridge = 5 ∧
    (failTrace 5).count SetupEvent.startBridge = 5 ∧
    (failTrace 5).count (SetupEvent.setupAttempt false) = 5 ∧
    (failTrace 5).count (SetupEvent.sleepMs 1000) = 4 := by
  have hws : welcomeSetup results = (failTrace 5, some (errs 4)) := by
    show retryDo results 5 0 = _
    rw [show (5 : Nat) = 4 + 1 from rfl, retryDo_all_fail results errs hfail 4 0]
  refine ⟨hws, ?_, by decide, by decide, by decide, by decide⟩
  unfold nickHandler
  rw [hws]

theorem c4_witness :
    welcomeSetup (fun _ => some "whapp broken") =
      (failTrace 5, some "whapp broken") ∧
    nickHandler (fun _ => some "whapp broken") =
      (failTrace 5 ++ [SetupEvent.statusMsg
        ("giving up trying to setup whapp bridge: " ++ "whapp broken")], true) := by
  have h := c4_setup_retry_exhaustion (fun _ => some "whapp broken")
    (fun _ => "whapp broken") (fun _ => rfl)
  exact ⟨h.1, h.2.1⟩

/- ## C7 -/

theorem tmGet_foldl_msgs_bound (l : List WMessage) :
    ∀ (m : WMap) (k : ChatID) (a : Timestamp),
      (∀ mg ∈ l, a < mg.timestamp) →
      a ≤ (tmGet m k).1 →
      a ≤ (tmGet (l.foldl (fun mm mg => tmSet mm mg.chatID mg.timestamp) m) k).1 := by
  induction l with
  | nil => intro m k a _ h2; exact h2
  | cons mg rest ih =>
    intro m k a h1 h2
    rw [List.foldl_cons]
    apply ih _ k a fun x hx => h1 x (List.mem_cons_of_mem mg hx)
    by_cases hk : k = mg.chatID
    · subst hk
      rw [tmGet_set_self]
      exact le_of_lt (h1 mg (List.mem_cons_self mg rest))
    · rw [tmGet_set_other _ _ _ _ hk]
      exact h2

theorem tmGet_foldl_msgs_found (l : List WMessage) :
    ∀ (m : WMap) (k : ChatID), (tmGet m k).2 = true →
      (tmGet (l.foldl (fun mm mg => tmSet mm mg.chatID mg.timestamp) m) k).2 = true := by
  induction l with
  | nil => intro m k h; exact h
  | cons mg rest ih =>
    intro m k h
    rw [List.foldl_cons]
    exact ih _ k (tmGet_set_found m mg.chatID k mg.timestamp h)

/-- One catch-up step never lowers its own chat's already-set watermark,
provided the chat's current platform timestamp is at least the stored
watermark; and the entry stays present. -/
theorem catchupChat_self_monotone (replay empty : Bool)
    (fetch : ChatID → Timestamp → Except String (List WMessage))
    (handleOk : WMessage → Bool) (m : WMap) (c : WChat)
    (hts : (tmGet m c.id).2 = true → (tmGet m c.id).1 ≤ c.timestamp)
    (hfound : (tmGet m c.id).2 = true) :
    (tmGet m c.id).1 ≤ (tmGet ((catchupChat replay empty fetch handleOk m c).1.1) c.id).1 ∧
    (tmGet ((catchupChat replay empty fetch handleOk m c).1.1) c.id).2 = true := by
  unfold catchupChat
  by_cases h1 : (empty || !replay) = true
  · rw [if_pos h1]
    rw [tmGet_set_self]
    exact ⟨hts hfound, rfl⟩
  · rw [if_neg h1]
    by_cases h2 : c.timestamp ≤ (tmGet m c.id).1
    · rw [if_pos h2]
      exact ⟨le_refl _, hfound⟩
    · rw [if_neg h2]
      cases hf : fetch c.id (prevEff m c) with
      | error e => exact ⟨le_refl _, hfound⟩
      | ok msgs =>
        show (tmGet m c.id).1 ≤
            (tmGet ((catchupMessages handleOk (prevEff m c) msgs m []).1.1) c.id).1 ∧
          (tmGet ((catchupMessages handleOk (prevEff m c) msgs m []).1.1) c.id).2 = true
        have hmap : (catchupMessages handleOk (prevEff m c) msgs m []).1.1 =
            (deliveredOf handleOk (prevEff m c) msgs).foldl
              (fun mm mg => tmSet mm mg.chatID mg.timestamp) m := by
          rw [catchupMessages_eq]
        rw [hmap]
        have hprev : prevEff m c = (tmGet m c.id).1 := by
          unfold prevEff
          rw [if_pos hfound]
        constructor
        · apply tmGet_foldl_msgs_bound _ _ _ _ ?_ (le_refl _)
          intro mg hmg
          rw [← hprev]
          exact (deliveredOf_mem _ _ _ mg hmg).2
        · exact tmGet_foldl_msgs_found _ _ _ hfound

/-- Across the whole catch-up loop, an already-set watermark entry is never
lowered and never removed, provided each chat's current timestamp is at
least its stored watermark and the platform returns only messages of the
requested chat. -/
theorem catchupGo_monotone (replay empty : Bool)
    (fetch : ChatID → Timestamp → Except String (List WMessage))
    (handleOk : WMessage → Bool)
    (hfid : ∀ k2 p msgs, fetch k2 p = Except.ok msgs →
      ∀ mg ∈ msgs, mg.chatID = k2) :
    ∀ (cs : List WChat) (m : WMap) (evs : List CatchupEvent),
      (cs.map WChat.id).Nodup →
      (∀ c ∈ cs, (tmGet m c.id).2 = true → (tmGet m c.id).1 ≤ c.timestamp) →
      ∀ k, (tmGet m k).2 = true →
        (tmGet m k).1 ≤ (tmGet ((catchupGo replay empty fetch handleOk cs m evs).1.1) k).1 ∧
        (tmGet ((catchupGo replay empty fetch handleOk cs m evs).1.1) k).2 = true := by
  intro cs
  induction cs with
  | nil => intro m evs _ _ k hk; exact ⟨le_refl _, hk⟩
  | cons x xs ih =>
    intro m evs hnd hts k hk
    rw [List.map_cons, List.nodup_cons] at hnd
    rcases hres : catchupChat replay empty fetch handleOk m x with ⟨⟨m2, evs2⟩, err⟩
    have hstepk : (tmGet m k).1 ≤ (tmGet m2 k).1 ∧ (tmGet m2 k).2 = true := by
      by_cases hkx : k = x.id
      · subst hkx
        have hmono := catchupChat_self_monotone replay empty fetch handleOk m x
          (hts x (List.mem_cons_self x xs)) hk
        rw [hres] at hmono
        exact hmono
      · have hunt := catchupChat_untouched replay empty fetch handleOk m x k hkx
          (fun p msgs hh => hfid x.id p msgs hh)
        rw [hres] at hunt
        rw [hunt.1]
        exact ⟨le_refl _, hk⟩
    have htransfer : ∀ c ∈ xs, (tmGet m2 c.id).2 = true →
        (tmGet m2 c.id).1 ≤ c.timestamp := by
      intro c hc
      have hck : c.id ≠ x.id := by
        intro e
        exact hnd.1 (e ▸ List.mem_map.mpr ⟨c, hc, rfl⟩)
      have hunt := catchupChat_untouched replay empty fetch handleOk m x c.id hck
        (fun p msgs hh => hfid x.id p msgs hh)
      rw [hres] at hunt
      rw [hunt.1]
      exact hts c (List.mem_cons_of_mem x hc)
    cases err with
    | none =>
      have hgo : catchupGo replay empty fetch handleOk (x :: xs) m evs =
          catchupGo replay empty fetch handleOk xs m2 (evs ++ evs2) := by
        simp only [catchupGo_cons, hres]
      rw [hgo]
      have hih := ih m2 (evs ++ evs2) hnd.2 htransfer k hstepk.2
      exact ⟨le_trans hstepk.1 hih.1, hih.2⟩
    | some e =>
      have hgo : catchupGo replay empty fetch handleOk (x :: xs) m evs =
          ((m2, evs ++ evs2), some e) := by
        simp only [catchupGo_cons, hres]
      rw [hgo]
      exact hstepk

/-- C7 counterexample: an already-set watermark is rewound by code under
src.  After `setup` restores the persisted snapshot (watermark 100 for the
chat), a catch-up run with the replay capability absent resets the entry to
the chat's current platform timestamp — here 90 — writing a strictly smaller
value over an already-set one. -/
theorem c7_counterexample :
    tmGet [("a@c.us", 100)] "a@c.us" = (100, true) ∧
    tmGet (catchupRun false sampleFetchEmpty (fun _ => true) [("a@c.us", 100)]
        [{ id := "a@c.us", timestamp := 90 }]).1.1 "a@c.us" = (90, true) ∧
    (90 : Int) < 100 := by
  refine ⟨?_, ?_, ?_⟩ <;> decide

/-- C7 (amended): once a chat's watermark is set, the catch-up run never
lowers it (and never removes it) — provided each chat's current platform
timestamp is at least its stored watermark (without that proviso the
no-replay reset overwrites the entry with a smaller current timestamp, see
the counterexample; the wholesale `tmSwap` restore likewise replaces entries
with whatever was persisted). -/
theorem c7_amended_watermark_monotone (replay : Bool)
    (fetch : ChatID → Timestamp → Except String (List WMessage))
    (handleOk : WMessage → Bool) (m0 : WMap) (chats : List WChat)
    (hids : (chats.map WChat.id).Nodup)
    (hfid : ∀ k p msgs, fetch k p = Except.ok msgs → ∀ mg ∈ msgs, mg.chatID = k)
    (hts : ∀ c ∈ chats, (tmGet m0 c.id).2 = true →
      (tmGet m0 c.id).1 ≤ c.timestamp) :
    ∀ k, (tmGet m0 k).2 = true →
      (tmGet m0 k).1 ≤ (tmGet (catchupRun replay fetch handleOk m0 chats).1.1 k).1 ∧
      (tmGet (catchupRun replay fetch handleOk m0 chats).1.1 k).2 = true := by
  intro k hk
  unfold catchupRun
  exact catchupGo_monotone replay (tmLength m0 == 0) fetch handleOk hfid chats
    m0 [] hids hts k hk

theorem c7_witness :
    (tmGet [("c1@g.us", 100)] "c1@g.us").1 ≤
      (tmGet (catchupRun true sampleFetchSorted (fun _ => true)
        [("c1@g.us", 100)] [{ id := "c1@g.us", timestamp := 150 }]).1.1
        "c1@g.us").1 ∧
    (tmGet (catchupRun true sampleFetchSorted (fun _ => true)
        [("c1@g.us", 100)] [{ id := "c1@g.us", timestamp := 150 }]).1.1
      "c1@g.us").2 = true := by
  have hfid : ∀ k p msgs, sampleFetchSorted k p = Except.ok msgs →
      ∀ mg ∈ msgs, mg.chatID = k := by
    intro k p msgs hh mg hmg
    simp only [sampleFetchSorted, Except.ok.injEq] at hh
    subst hh
    rcases List.mem_cons.mp hmg with h1 | h2
    · rw [h1]
    · rcases List.mem_cons.mp h2 with h3 | h4
      · rw [h3]
      · exact absurd h4 (List.not_mem_nil mg)
  exact c7_amended_watermark_monotone true sampleFetchSorted (fun _ => true)
    [("c1@g.us", 100)] [{ id := "c1@g.us", timestamp := 150 }] (by decide) hfid
    (by
      intro c hc hfound
      have : c = { id := "c1@g.us", timestamp := 150 } := by
        rcases List.mem_cons.mp hc with h1 | h2
        · exact h1
        · exact absurd h2 (List.not_mem_nil c)
      subst this
      decide)
    "c1@g.us" (by decide)

/- ## C8 -/

/-- C8 counterexample: when `GetLocalStorage` succeeds and the database save
fails, `setup` returns the save error: the setup attempt aborts because
`saveDatabaseEntry` returned an error, contradicting the claim that no
operation of the connection fails because of a failed save. -/
theorem c8_counterexample :
    (setupLocalStorageStep (Except.ok [("k", "v")]) (some "disk full")
        { nickname := "bob", localStorage := [], timestampMap := [] }).2 =
      some "disk full" := by
  rfl

/-- C8 (amended): a failed save is logged and leaves the in-memory state
unchanged (`saveDatabaseEntry` only reads the connection), and a failed
`GetLocalStorage` is logged without failing setup; but `setup` propagates a
save failure that follows a successful `GetLocalStorage` as a setup error,
failing that setup attempt. -/
theorem c8_amended_save_failures (saveResult : Option String) (st : ConnPersist)
    (ls : List (String × String)) (e : String) :
    (saveDatabaseEntry saveResult st).1 = st ∧
    (saveDatabaseEntry (some e) st).2.2 = some e ∧
    (setupLocalStorageStep (Except.error e) saveResult st).2 = none ∧
    (setupLocalStorageStep (Except.ok ls) (some e) st).2 = some e ∧
    (setupLocalStorageStep (Except.ok ls) none st).2 = none := by
  refine ⟨?_, rfl, rfl, rfl, rfl⟩
  cases saveResult <;> rfl

/- ## C9 -/

/-- C9: spec-modelled Ordered Resolution Pipeline.  In every reachable state
the output handed to the single downstream consumer is exactly the slots
0, 1, ..., consumed-1 — the events in arrival order, for any number of
events and any interleaving of out-of-order resolutions — and the number of
accepted events still in flight never exceeds the concurrency window. -/
theorem c9_pipeline_order_and_window (window n : Nat) (s : PipeState)
    (h : PipeReachable window n s) :
    s.output = List.range s.consumed ∧
    (∀ i ∈ s.resolvedSlots, i < s.dispatched) ∧
    s.consumed ≤ s.dispatched ∧
    s.dispatched ≤ n ∧
    s.dispatched - s.consumed ≤ window := by
  induction h with
  | init =>
    refine ⟨rfl, ?_, Nat.le_refl 0, Nat.zero_le n, by simp [pipeInit]⟩
    intro i hi
    exact absurd hi (List.not_mem_nil i)
  | step s t hr hst ih =>
    cases hst with
    | dispatch h1 h2 =>
      refine ⟨ih.1, fun i hi => Nat.lt_succ_of_lt (ih.2.1 i hi),
        Nat.le_succ_of_le ih.2.2.1, h1, ?_⟩
      show s.dispatched + 1 - s.consumed ≤ window
      have hw := h2
      have hc := ih.2.2.1
      omega
    | resolve i h1 h2 =>
      refine ⟨ih.1, ?_, ih.2.2.1, ih.2.2.2.1, ih.2.2.2.2⟩
      intro j hj
      rcases List.mem_cons.mp hj with he | hm
      · exact he ▸ h1
      · exact ih.2.1 j hm
    | consume h1 =>
      have hlt : s.consumed < s.dispatched := ih.2.1 s.consumed h1
      refine ⟨?_, fun i hi => ih.2.1 i hi, hlt, ih.2.2.2.1, ?_⟩
      · show s.output ++ [s.consumed] = List.range (s.consumed + 1)
        rw [ih.1, List.range_succ]
      · show s.dispatched - (s.consumed + 1) ≤ window
        have hw := ih.2.2.2.2
        omega

theorem c9_witness :
    PipeReachable messageQueueWindow 1 pipeSample ∧
    pipeSample.output = List.range pipeSample.consumed ∧
    pipeSample.dispatched - pipeSample.consumed ≤ messageQueueWindow := by
  have h1 : PipeStep messageQueueWindow 1 pipeInit pipeA :=
    PipeStep.dispatch pipeInit (by decide) (by decide)
  have h2 : PipeStep messageQueueWindow 1 pipeA pipeB :=
    PipeStep.resolve pipeA 0 (by decide) (by decide)
  have h3 : PipeStep messageQueueWindow 1 pipeB pipeSample :=
    PipeStep.consume pipeB (by decide)
  have hreach : PipeReachable messageQueueWindow 1 pipeSample :=
    PipeReachable.step pipeB pipeSample
      (PipeReachable.step pipeA pipeB
        (PipeReachable.step pipeInit pipeA PipeReachable.init h1) h2) h3
  have h := c9_pipeline_order_and_window messageQueueWindow 1 pipeSample hreach
  exact ⟨hreach, h.1, h.2.2.2.2⟩
